import Mathlib

/-!
Shallow embedding of the batch-analysis core of the visual-content-analyzer
frontend: the retry wrapper `withRetry`, the client-side validator
`validateFile`, the chunked batch orchestrator `analyzeImages` (all from the
API service module) and the App-level item store handlers
(`handleImageProcessingComplete`, `handleRemoveImage`, `handleClearAll`).

JavaScript numbers are modelled as `Nat` (all quantities involved are
non-negative integers or percentages); `Math.round` on a non-negative
rational `num / den` is modelled as `(2 * num + den) / (2 * den)`
(round half up), matching floor (x + 1/2).
-/

/-- Raw outcome of one HTTP attempt as seen by the retry wrapper: a thrown
JavaScript error whose `error.response?.status` is `status?`; `none` models a
transport-level failure with no response object. -/
structure JsError where
  status? : Option Nat
deriving DecidableEq, Repr

/-- Trace of one run of the retry wrapper: the value returned or error
finally thrown, the number of attempts performed, and the backoff delays
slept between consecutive attempts, in order. -/
structure RetryTrace (α : Type) where
  result : Except JsError α
  attempts : Nat
  delays : List Nat
deriving Repr

/-- The non-retry test of `withRetry`:
`error.response?.status >= 400 && error.response?.status < 500 &&
 error.response?.status !== 429` (client errors other than 429 are not
retried).  With no response object the JS comparisons are false, so the
error stays retryable. -/
def isClientNonRetryable (e : JsError) : Bool :=
  match e.status? with
  | some s => decide (400 ≤ s) && decide (s < 500) && decide (s ≠ 429)
  | none => false

/-- Constant `API_CONFIG.maxRetries` from the API service module. -/
def API_CONFIG_maxRetries : Nat := 3

/-- Constant `API_CONFIG.retryDelay` from the API service module (milliseconds). -/
def API_CONFIG_retryDelay : Nat := 1000

/-- The loop body of `withRetry`: `fn` gives the outcome of the attempt with
each index, `attempt` is the current index and `remaining` the number of
retries still allowed (`maxRetries - attempt`).  On a retry the slept delay
`baseDelay * 2 ^ attempt` is recorded.  When `remaining = 0` the loop breaks
and the last error is rethrown, which coincides with rethrowing a
non-retryable error. -/
def retryLoop (fn : Nat → Except JsError α) (baseDelay : Nat) :
    Nat → Nat → RetryTrace α
  | attempt, 0 =>
    match fn attempt with
    | .ok v => ⟨.ok v, attempt + 1, []⟩
    | .error e => ⟨.error e, attempt + 1, []⟩
  | attempt, r + 1 =>
    match fn attempt with
    | .ok v => ⟨.ok v, attempt + 1, []⟩
    | .error e =>
      if isClientNonRetryable e then ⟨.error e, attempt + 1, []⟩
      else
        let rest := retryLoop fn baseDelay (attempt + 1) r
        ⟨rest.result, rest.attempts, baseDelay * 2 ^ attempt :: rest.delays⟩

/-- Function `withRetry(fn, maxRetries, baseDelay)` from the API service module,
starting the attempt loop at index 0. -/
def withRetry (fn : Nat → Except JsError α) (maxRetries baseDelay : Nat) :
    RetryTrace α :=
  retryLoop fn baseDelay 0 maxRetries

/-- Function `isRetryableError` from the API service module, acting on a parsed
`APIError`-style status (0 encodes a network error). -/
def isRetryableError (status : Nat) : Bool :=
  if status = 0 then true else decide (500 ≤ status) || decide (status = 429)

/-- The `allowedTypes` list of `validateFile`. -/
def allowedTypes : List String := ["image/jpeg", "image/jpg", "image/png", "image/webp"]

/-- The fields of a browser `File` object read by `validateFile`. -/
structure JsFile where
  type : String
  size : Nat
  name : String
deriving DecidableEq, Repr

/-- The `maxSize` constant of `validateFile` (10 MB). -/
def maxSize : Nat := 10 * 1024 * 1024

/-- JavaScript `String.prototype.toLowerCase`, modelled characterwise (the
MIME strings involved are ASCII). -/
def jsToLower (s : String) : String := String.mk (s.data.map Char.toLower)

/-- JavaScript `String.prototype.trim`: strip leading and trailing
whitespace. -/
def jsTrim (s : String) : String :=
  String.mk (((s.data.dropWhile Char.isWhitespace).reverse.dropWhile Char.isWhitespace).reverse)

/-- Result record of `validateFile`. -/
structure ValidationResult where
  valid : Bool
  errors : List String
deriving DecidableEq, Repr

/-- Rendering of `(size / 1024 / 1024).toFixed(1)`: the megabyte count with
one fractional digit, with exact rational round-half-up standing in for the
JS float rounding. -/
def sizeMB1 (size : Nat) : String :=
  let tenths := (size * 10 + 524288) / 1048576
  s!"{tenths / 10}.{tenths % 10}"

/-- Function `validateFile(file)` from the API service module: pure checks of MIME
type (case-insensitive via `toLowerCase`), size bound and non-blank name,
each failed check appending one message to `errors`;
`valid` is `errors.length === 0`. -/
def validateFile (file : JsFile) : ValidationResult :=
  let errors : List String := []
  let t := file.type
  let errors := if !(allowedTypes.contains (jsToLower file.type)) then
      errors ++ [s!"Unsupported file type: {t}. Use JPEG, PNG, or WebP."]
    else errors
  let m := sizeMB1 file.size
  let errors := if file.size > maxSize then
      errors ++ [s!"File too large: {m}MB. Maximum size is 10MB."]
    else errors
  let errors := if file.name == "" || jsTrim file.name == "" then
      errors ++ ["File must have a valid name."]
    else errors
  ⟨errors.isEmpty, errors⟩

/-- One entry of the `images` state of the App component: a processed image
record (successful or error-state), carrying the preview URL taken over from
its loading entry.  Result payload fields not inspected by any claim (tag
list contents, metadata) are carried as the tag label list. -/
structure ImageRecord where
  id : String
  filename : String
  previewUrl : Option String
  tags : List String
deriving DecidableEq, Repr

/-- One entry of the `loadingImages` state (and of the per-batch
`loadingEntries` array captured in `handleFilesSelected`): `filename` is
`entry.file.name`, which `handleImageProcessingComplete` uses for matching;
`previewUrl` is the object URL created at submission (`null` when
`URL.createObjectURL` failed). -/
structure LoadingEntry where
  id : String
  filename : String
  previewUrl : Option String
deriving DecidableEq, Repr

/-- The settlement payload passed to `onImageComplete` and then to
`handleImageProcessingComplete`: `result.file.name`, the success flag, and
the error message / tag list of the corresponding branch. -/
structure SettleOutcome where
  fileName : String
  success : Bool
  error : String
  tags : List String
deriving DecidableEq, Repr

/-- The App component's mutable state relevant to the item life cycle:
`images`, `loadingImages`, `errorImages` (an id-keyed map, modelled as an
association list), plus `revoked`, the log of `URL.revokeObjectURL` calls
performed so far (in order), used to count preview releases. -/
structure AppState where
  images : List ImageRecord
  loadingImages : List LoadingEntry
  errorImages : List (String × String)
  revoked : List String
deriving DecidableEq, Repr

/-- Handler `handleImageProcessingComplete(result, loadingEntries)`: find the
loading entry whose `file.name` equals `result.file.name` in the captured
`loadingEntries` array (not in the live `loadingImages` state); bail out if
absent; otherwise drop the entry's id from `loadingImages` and either
prepend a processed record to `images` and delete the id from `errorImages`
(success), or record the error message in `errorImages` and prepend an
error-state record to `images` (failure). -/
def handleImageProcessingComplete (result : SettleOutcome)
    (loadingEntries : List LoadingEntry) (s : AppState) : AppState :=
  match loadingEntries.find? (fun entry => entry.filename == result.fileName) with
  | none => s
  | some loadingEntry =>
    let s := { s with
      loadingImages := s.loadingImages.filter (fun img => img.id != loadingEntry.id) }
    if result.success then
      let processedImage : ImageRecord :=
        ⟨loadingEntry.id, result.fileName, loadingEntry.previewUrl, result.tags⟩
      { s with
        images := processedImage :: s.images,
        errorImages := s.errorImages.filter (fun p => p.1 != loadingEntry.id) }
    else
      let errorImage : ImageRecord :=
        ⟨loadingEntry.id, result.fileName, loadingEntry.previewUrl, []⟩
      { s with
        errorImages := s.errorImages.filter (fun p => p.1 != loadingEntry.id)
          ++ [(loadingEntry.id, result.error)],
        images := errorImage :: s.images }

/-- Handler `handleRemoveImage(imageId)`: revoke the preview URL of the record found
for `imageId` in the `images` list (only there — `loadingImages` is not
searched), then filter the id out of `images`, `loadingImages` and
`errorImages`. -/
def handleRemoveImage (imageId : String) (s : AppState) : AppState :=
  let revoked :=
    match s.images.find? (fun img => img.id == imageId) with
    | some image =>
      match image.previewUrl with
      | some url => s.revoked ++ [url]
      | none => s.revoked
    | none => s.revoked
  { images := s.images.filter (fun img => img.id != imageId),
    loadingImages := s.loadingImages.filter (fun img => img.id != imageId),
    errorImages := s.errorImages.filter (fun p => p.1 != imageId),
    revoked := revoked }

/-- Helper of `handleClearAll`: revoke the preview URLs of a record list in
order, skipping records without one. -/
def revokeAll (urls : List (Option String)) (revoked : List String) : List String :=
  urls.foldl (fun acc u => match u with | some url => acc ++ [url] | none => acc) revoked

/-- Handler `handleClearAll()`: revoke every preview URL held in `images`, then
every one held in `loadingImages`, and reset all three state collections to
empty. -/
def handleClearAll (s : AppState) : AppState :=
  let r1 := revokeAll (s.images.map (fun img => img.previewUrl)) s.revoked
  let r2 := revokeAll (s.loadingImages.map (fun img => img.previewUrl)) r1
  ⟨[], [], [], r2⟩

/-- Observable scheduling events of one `analyzeImages` run over items
indexed `0, …, n-1`: the start of item `i`'s analyze request, an
upload-progress callback of item `i` reporting `p` percent, and the
settlement of item `i` with success flag `ok`. -/
inductive BEvent where
  | start (i : Nat)
  | uprog (i : Nat) (p : Nat)
  | settle (i : Nat) (ok : Bool)
deriving DecidableEq, Repr

/-- Environment of one batch run: for each item index, whether its
`analyzeImage` call (after internal retries) succeeds, and the sequence of
upload-progress percentages its `onUploadProgress` handler reports before it
settles. -/
structure BatchEnv where
  ok : Nat → Bool
  uploads : Nat → List Nat

/-- The asynchronous event stream of one item after its request has
started: its upload-progress callbacks in order, then its settlement. -/
def itemStream (env : BatchEnv) (i : Nat) : List BEvent :=
  (env.uploads i).map (BEvent.uprog i) ++ [BEvent.settle i (env.ok i)]

/-- The chunking loop of `analyzeImages`:
`for (let i = 0; i < files.length; i += CONCURRENT_LIMIT)
   chunks.push(files.slice(i, i + CONCURRENT_LIMIT))`
with `CONCURRENT_LIMIT = 3`. -/
def chunksOf3 : List Nat → List (List Nat)
  | [] => []
  | [a] => [[a]]
  | [a, b] => [[a, b]]
  | a :: b :: c :: rest => [a, b, c] :: chunksOf3 rest

/-- Remove the head of the `k`-th non-empty stream (empty streams are
skipped), returning that head and the streams with it removed; `none` when
fewer than `k + 1` streams are non-empty. -/
def removeHead : List (List BEvent) → Nat → Option (BEvent × List (List BEvent))
  | [], _ => none
  | [] :: rest, k =>
    (removeHead rest k).map (fun p => (p.1, [] :: p.2))
  | (e :: es) :: rest, 0 => some (e, es :: rest)
  | (e :: es) :: rest, k + 1 =>
    (removeHead rest k).map (fun p => (p.1, (e :: es) :: p.2))

/-- Interleave a family of per-item event streams according to an oracle of
scheduling choices; when the oracle is exhausted (or points past the
non-empty streams) the remaining events are flushed in stream order.  Every
output is an interleaving of the streams, and every interleaving is the
output for some oracle. -/
def mergeStreams : List (List BEvent) → List Nat → List BEvent
  | streams, [] => streams.flatten
  | streams, c :: cs =>
    match removeHead streams c with
    | none => streams.flatten
    | some (e, streams') => e :: mergeStreams streams' cs

/-- The event trace of one chunk of `analyzeImages`: `chunk.map(async …)`
starts every request of the chunk synchronously in submission order, after
which the items' response events interleave according to the oracle. -/
def chunkTrace (env : BatchEnv) (idxs : List Nat) (oracle : List Nat) : List BEvent :=
  idxs.map BEvent.start ++ mergeStreams (idxs.map (itemStream env)) oracle

/-- The per-chunk event traces of `analyzeImages` over `n` files, in chunk
order, chunk `c` interleaved by `oracles c`. -/
def chunkTraces (env : BatchEnv) (n : Nat) (oracles : Nat → List Nat) :
    List (List BEvent) :=
  (chunksOf3 (List.range n)).enum.map (fun p => chunkTrace env p.2 (oracles p.1))

/-- The full event trace of `analyzeImages` over `n` files: the chunks of
size 3 run strictly one after another (`await Promise.all(chunkPromises)`). -/
def batchTrace (env : BatchEnv) (n : Nat) (oracles : Nat → List Nat) : List BEvent :=
  (chunkTraces env n oracles).flatten

/-- JavaScript `Math.round (num / den)` for non-negative operands:
`⌊num / den + 1/2⌋`. -/
def jsRound (num den : Nat) : Nat := (2 * num + den) / (2 * den)

/-- Record of one `onImageComplete` invocation: the settled item, its
success flag, and the orchestrator counters the callback observer sees at
the instant the callback fires (`completed`, `results.length`,
`errors.length`). -/
structure CallbackRec where
  item : Nat
  ok : Bool
  completedSeen : Nat
  resultsSeen : Nat
  errorsSeen : Nat
deriving DecidableEq, Repr

/-- The orchestrator bookkeeping of `analyzeImages` while a trace is
consumed: the `completed` counter, the `results` and `errors` arrays
(by settled item index, in settlement order), the values passed to
`onProgress` in order, and the `onImageComplete` invocations in order. -/
structure BState where
  completed : Nat
  results : List Nat
  errors : List Nat
  progressLog : List Nat
  callbacks : List CallbackRec
deriving DecidableEq, Repr

/-- The initial orchestrator state of one `analyzeImages` run. -/
def initB : BState := ⟨0, [], [], [], []⟩

/-- Effect of one scheduling event on the orchestrator bookkeeping of a run
over `n` files.  A `start` has no bookkeeping effect.  An upload-progress
callback reports `Math.round(((completed + progress / 100) / files.length) * 100)`.
A settlement increments `completed`, pushes the item into `results` or
`errors`, fires `onImageComplete` (which therefore sees the updated
counters), then reports `Math.round((completed / files.length) * 100)`. -/
def stepEvent (n : Nat) (s : BState) : BEvent → BState
  | .start _ => s
  | .uprog _ p =>
    { s with progressLog := s.progressLog ++ [jsRound (100 * s.completed + p) n] }
  | .settle i ok =>
    let completed := s.completed + 1
    let results := if ok then s.results ++ [i] else s.results
    let errors := if ok then s.errors else s.errors ++ [i]
    let cb : CallbackRec := ⟨i, ok, completed, results.length, errors.length⟩
    { completed := completed,
      results := results,
      errors := errors,
      callbacks := s.callbacks ++ [cb],
      progressLog := s.progressLog ++ [jsRound (100 * completed) n] }

/-- The orchestrator state after consuming an event trace. -/
def runTrace (n : Nat) (t : List BEvent) : BState := t.foldl (stepEvent n) initB

/-- The final orchestrator state of an `analyzeImages` run over `n` files
with outcomes `env`, scheduled by `oracles`. -/
def runBatch (env : BatchEnv) (n : Nat) (oracles : Nat → List Nat) : BState :=
  runTrace n (batchTrace env n oracles)

/-- The `summary` object returned by `analyzeImages`:
`{ total: files.length, successful: results.length, failed: errors.length }`. -/
structure BatchSummary where
  total : Nat
  successful : Nat
  failed : Nat
deriving DecidableEq, Repr

/-- The summary of a completed `analyzeImages` run. -/
def summaryOf (env : BatchEnv) (n : Nat) (oracles : Nat → List Nat) : BatchSummary :=
  let s := runBatch env n oracles
  ⟨n, s.results.length, s.errors.length⟩

/-- Classifier of `start` events. -/
def isStartE (e : BEvent) : Bool :=
  match e with | .start _ => true | _ => false

/-- Classifier of `settle` events. -/
def isSettleE (e : BEvent) : Bool :=
  match e with | .settle _ _ => true | _ => false

/-- Classifier of upload-progress events. -/
def isUprogE (e : BEvent) : Bool :=
  match e with | .uprog _ _ => true | _ => false

/-- Classifier of the settlement event of item `i`. -/
def settleOf (i : Nat) (e : BEvent) : Bool :=
  match e with | .settle j _ => j == i | _ => false

/-- Number of `start` events minus number of `settle` events in a trace
section: the count of operations in flight after that section, when every
settle of the section follows its start. -/
def inFlight (t : List BEvent) : Nat :=
  t.countP isStartE - t.countP isSettleE

/-- A trace whose last event is a settlement. -/
def endsSettle (t : List BEvent) : Prop :=
  ∃ i ok, t.getLast? = some (BEvent.settle i ok)

/-- Scenario for the admission-order claim: 5 items, no upload-progress
events, every item succeeding. -/
def env5 : BatchEnv := ⟨fun _ => true, fun _ => []⟩

/-- Schedule for the admission-order claim: in the first chunk item 0
settles first, then items 1 and 2; later chunks flush in order. -/
def or5 : Nat → List Nat := fun c => if c = 0 then [0, 0, 0] else []

/-- Scenario for the progress-monotonicity claim: 2 items in one chunk,
item 0 reporting 100% upload progress and item 1 then reporting 10%. -/
def env2 : BatchEnv := ⟨fun _ => true, fun i => if i = 0 then [100] else [10]⟩

/-- Schedule for the progress-monotonicity claim: the two upload-progress
callbacks fire in item order before either item settles. -/
def or2 : Nat → List Nat := fun _ => [0, 1]

/-- Store scenario for the removal claims: one item, id "a", currently
Loading with a live preview URL, nothing processed yet. -/
def s0c3 : AppState := ⟨[], [⟨"a", "f.jpg", some "blob:a"⟩], [], []⟩

/-- The batch's captured `loadingEntries` array in the removal scenario. -/
def entries3 : List LoadingEntry := [⟨"a", "f.jpg", some "blob:a"⟩]

/-- The successful settlement arriving for the removed item. -/
def settled3 : SettleOutcome := ⟨"f.jpg", true, "", ["cat"]⟩

/-- Store scenario for the preview-release claim: same shape as the removal
scenario, an item that is only in `loadingImages`. -/
def s0c4 : AppState := ⟨[], [⟨"b", "g.jpg", some "blob:b"⟩], [], []⟩

/-- Classified-retryable raw errors (no response, status 429, or status at
least 500) fail the client-error test of `withRetry`. -/
theorem isClientNonRetryable_false {e : JsError}
    (h : e.status? = none ∨ e.status? = some 429 ∨
      ∃ s, e.status? = some s ∧ 500 ≤ s) :
    isClientNonRetryable e = false := by
  rcases h with h | h | ⟨s, hs, h500⟩
  · simp [isClientNonRetryable, h]
  · simp [isClientNonRetryable, h]
  · simp [isClientNonRetryable, hs]
    omega

/-- C5: for an operation whose every attempt fails with a
retryable-classified error (no response, status 429, or status ≥ 500),
`withRetry` with its default configuration performs exactly 4 attempts
(one initial plus `maxRetries = 3` retries) sequentially, sleeping
`baseDelay * 2 ^ k` (base 1000 ms) after failed attempt `k`, and finally
rethrows the last attempt's error, which the caller then classifies. -/
theorem C5_retry_exhausts_attempts (errs : Nat → JsError)
    (hretry : ∀ k, k < 4 →
      (errs k).status? = none ∨ (errs k).status? = some 429 ∨
      ∃ s, (errs k).status? = some s ∧ 500 ≤ s) :
    withRetry (α := Unit) (fun k => Except.error (errs k))
        API_CONFIG_maxRetries API_CONFIG_retryDelay
      = ⟨Except.error (errs 3), 4, [1000, 2000, 4000]⟩ := by
  have h0 := isClientNonRetryable_false (hretry 0 (by omega))
  have h1 := isClientNonRetryable_false (hretry 1 (by omega))
  have h2 := isClientNonRetryable_false (hretry 2 (by omega))
  simp [withRetry, API_CONFIG_maxRetries, API_CONFIG_retryDelay, retryLoop, h0, h1, h2]

/-- Witness for the exhausted-retries theorem: an operation always failing
with status 500. -/
theorem C5_retry_exhausts_attempts_witness :
    withRetry (α := Unit) (fun _ => Except.error ⟨some 500⟩)
        API_CONFIG_maxRetries API_CONFIG_retryDelay
      = ⟨Except.error ⟨some 500⟩, 4, [1000, 2000, 4000]⟩ :=
  C5_retry_exhausts_attempts (fun _ => ⟨some 500⟩)
    (fun _ _ => Or.inr (Or.inr ⟨500, rfl, Nat.le_refl 500⟩))

/-- C6: for an operation whose first attempt fails with a response status
in [400, 500) other than 429, `withRetry` makes exactly one attempt,
sleeps no backoff delay, and surfaces that error immediately. -/
theorem C6_non_retryable_single_attempt {α : Type} (fn : Nat → Except JsError α)
    (s : Nat) (h0 : fn 0 = Except.error ⟨some s⟩)
    (h400 : 400 ≤ s) (h500 : s < 500) (h429 : s ≠ 429) :
    withRetry fn API_CONFIG_maxRetries API_CONFIG_retryDelay
      = ⟨Except.error ⟨some s⟩, 1, []⟩ := by
  have hc : isClientNonRetryable ⟨some s⟩ = true := by
    simp [isClientNonRetryable, h400, h500, h429]
  simp [withRetry, API_CONFIG_maxRetries, retryLoop, h0, hc]

/-- Witness for the single-attempt theorem: a first attempt failing with
status 422. -/
theorem C6_non_retryable_single_attempt_witness :
    withRetry (α := Unit) (fun _ => Except.error ⟨some 422⟩)
        API_CONFIG_maxRetries API_CONFIG_retryDelay
      = ⟨Except.error ⟨some 422⟩, 1, []⟩ :=
  C6_non_retryable_single_attempt (fun _ => Except.error ⟨some 422⟩) 422 rfl
    (by omega) (by omega) (by omega)

/-- The blank-name test of `validateFile` is equivalent to the trimmed name
being empty (an empty name is falsy in JS and trims to itself). -/
theorem nameCheck_eq (nm : String) :
    (nm == "" || jsTrim nm == "") = (jsTrim nm == "") := by
  by_cases h : nm = ""
  · subst h
    decide
  · have hb : (nm == "") = false := beq_eq_false_iff_ne.mpr h
    rw [hb, Bool.false_or]

/-- C10: `validateFile` is a pure total function; it reports `valid = true`
exactly when the lowercased MIME type is allowed, the size is at most
10 * 1024 * 1024 bytes and the name is non-blank after trimming, and each
violated condition contributes exactly one entry to `errors` (so `valid`
is equivalent to `errors` being empty). -/
theorem C10_validateFile_spec (file : JsFile) :
    ((validateFile file).valid = true ↔
      (jsToLower file.type ∈ allowedTypes ∧ file.size ≤ maxSize ∧
        jsTrim file.name ≠ "")) ∧
    (validateFile file).errors.length =
      ((if jsToLower file.type ∈ allowedTypes then 0 else 1) +
        (if file.size ≤ maxSize then 0 else 1) +
        (if jsTrim file.name = "" then 1 else 0)) ∧
    ((validateFile file).valid = (validateFile file).errors.isEmpty) := by
  unfold validateFile
  rw [nameCheck_eq]
  by_cases h1 : jsToLower file.type ∈ allowedTypes <;>
    by_cases h2 : file.size ≤ maxSize <;>
      by_cases h3 : jsTrim file.name = "" <;>
        simp [← Nat.not_le, h1, h2, h3, beq_iff_eq]

/-- C3 counterexample: for an item that is Loading, `handleRemoveImage`
does evict it from every store collection, but a settlement arriving
afterwards for the same identity is NOT a no-op: the handler finds the
item in the batch's captured `loadingEntries` array and re-adds a record
with the evicted id to the images list. -/
theorem C3_cex_settlement_resurrects :
    (handleRemoveImage "a" s0c3).images = [] ∧
    (handleRemoveImage "a" s0c3).loadingImages = [] ∧
    (handleRemoveImage "a" s0c3).errorImages = [] ∧
    (handleImageProcessingComplete settled3 entries3 (handleRemoveImage "a" s0c3)).images
      = [⟨"a", "f.jpg", some "blob:a", ["cat"]⟩] := by
  decide

/-- C3 amended: removing a Loading item evicts its record from `images`,
`loadingImages` and `errorImages` immediately, and a later settlement never
revokes the preview resource again; but the settlement is not a no-op on
the store: whenever the batch's captured `loadingEntries` array still holds
a matching entry (matching is by file name), a successful settlement
re-adds a record with the evicted identity at the head of the images
list. -/
theorem C3_remove_then_settle (imageId : String) (s : AppState)
    (result : SettleOutcome) (loadingEntries : List LoadingEntry)
    (entry : LoadingEntry)
    (hfind : loadingEntries.find? (fun e => e.filename == result.fileName) = some entry)
    (hid : entry.id = imageId) (hsucc : result.success = true) :
    (∀ img ∈ (handleRemoveImage imageId s).images, img.id ≠ imageId) ∧
    (∀ img ∈ (handleRemoveImage imageId s).loadingImages, img.id ≠ imageId) ∧
    (∀ p ∈ (handleRemoveImage imageId s).errorImages, p.1 ≠ imageId) ∧
    (handleImageProcessingComplete result loadingEntries
        (handleRemoveImage imageId s)).revoked
      = (handleRemoveImage imageId s).revoked ∧
    (handleImageProcessingComplete result loadingEntries
        (handleRemoveImage imageId s)).images.head?
      = some ⟨imageId, result.fileName, entry.previewUrl, result.tags⟩ := by
  subst hid
  refine ⟨?_, ?_, ?_, ?_, ?_⟩
  · intro img hmem
    have := List.of_mem_filter hmem
    simpa using this
  · intro img hmem
    have := List.of_mem_filter hmem
    simpa using this
  · intro p hmem
    have := List.of_mem_filter hmem
    simpa using this
  · simp [handleImageProcessingComplete, hfind, hsucc]
  · simp [handleImageProcessingComplete, hfind, hsucc]

/-- Witness for the remove-then-settle theorem at the concrete Loading
scenario. -/
theorem C3_remove_then_settle_witness :
    (∀ img ∈ (handleRemoveImage "a" s0c3).images, img.id ≠ "a") ∧
    (∀ img ∈ (handleRemoveImage "a" s0c3).loadingImages, img.id ≠ "a") ∧
    (∀ p ∈ (handleRemoveImage "a" s0c3).errorImages, p.1 ≠ "a") ∧
    (handleImageProcessingComplete settled3 entries3 (handleRemoveImage "a" s0c3)).revoked
      = (handleRemoveImage "a" s0c3).revoked ∧
    (handleImageProcessingComplete settled3 entries3 (handleRemoveImage "a" s0c3)).images.head?
      = some ⟨"a", settled3.fileName, some "blob:a", settled3.tags⟩ :=
  C3_remove_then_settle "a" s0c3 settled3 entries3 ⟨"a", "f.jpg", some "blob:a"⟩
    (by decide) rfl rfl

/-- C4 counterexample: the item with id "b" is currently Loading (it is in
`loadingImages` with a live preview URL); removing it evicts the record but
revokes its preview URL zero times, not exactly once — `handleRemoveImage`
only searches the `images` list for a URL to revoke, so the preview of a
Loading item leaks. -/
theorem C4_cex_loading_preview_leaks :
    s0c4.loadingImages = [⟨"b", "g.jpg", some "blob:b"⟩] ∧
    (handleRemoveImage "b" s0c4).loadingImages = [] ∧
    (handleRemoveImage "b" s0c4).revoked.count "blob:b" = 0 := by
  decide

/-- C4 amended: `handleRemoveImage` releases the preview handle exactly
once when the removed identity has a record in the `images` list carrying a
preview URL; when the identity has no `images` record — in particular when
the item is only Loading — it evicts the record without revoking anything,
so such a preview handle is never released by removal. -/
theorem C4_remove_revokes_once (imageId url : String) (s : AppState) :
    (∀ img, s.images.find? (fun i => i.id == imageId) = some img →
      img.previewUrl = some url →
      (handleRemoveImage imageId s).revoked = s.revoked ++ [url]) ∧
    (s.images.find? (fun i => i.id == imageId) = none →
      (handleRemoveImage imageId s).revoked = s.revoked) := by
  constructor
  · intro img hfind hurl
    simp [handleRemoveImage, hfind, hurl]
  · intro hfind
    simp [handleRemoveImage, hfind]

/-- Witness for the revoke-exactly-once theorem: a state with one settled
record, whose removal revokes its URL once, and the Loading-only state, 
whose removal revokes nothing. -/
theorem C4_remove_revokes_once_witness :
    (handleRemoveImage "c" ⟨[⟨"c", "h.jpg", some "blob:c", []⟩], [], [], []⟩).revoked
      = [] ++ ["blob:c"] ∧
    (handleRemoveImage "b" s0c4).revoked = s0c4.revoked :=
  ⟨(C4_remove_revokes_once "c" "blob:c" ⟨[⟨"c", "h.jpg", some "blob:c", []⟩], [], [], []⟩).1
      ⟨"c", "h.jpg", some "blob:c", []⟩ (by decide) rfl,
    (C4_remove_revokes_once "b" "blob:b" s0c4).2 (by decide)⟩

/-- Decomposition of a successful `removeHead`: the emitted event is the
head of one stream, removed in place. -/
theorem removeHead_eq :
    ∀ {streams : List (List BEvent)} {k : Nat} {e : BEvent}
      {streams' : List (List BEvent)},
      removeHead streams k = some (e, streams') →
      ∃ pre es post, streams = pre ++ (e :: es) :: post ∧
        streams' = pre ++ es :: post := by
  intro streams
  induction streams with
  | nil => intro k e s' h; simp [removeHead] at h
  | cons s rest ih =>
    intro k e s' h
    cases s with
    | nil =>
      cases hr : removeHead rest k with
      | none => simp [removeHead, hr] at h
      | some pr =>
        obtain ⟨e0, rest0⟩ := pr
        simp [removeHead, hr] at h
        obtain ⟨he, hs⟩ := h
        subst he
        subst hs
        obtain ⟨pre, es, post, h1, h2⟩ := ih hr
        exact ⟨[] :: pre, es, post, by simp [h1], by simp [h2]⟩
    | cons a as =>
      cases k with
      | zero =>
        simp [removeHead] at h
        obtain ⟨he, hs⟩ := h
        subst he
        subst hs
        exact ⟨[], as, rest, rfl, rfl⟩
      | succ k' =>
        cases hr : removeHead rest k' with
        | none => simp [removeHead, hr] at h
        | some pr =>
          obtain ⟨e0, rest0⟩ := pr
          simp [removeHead, hr] at h
          obtain ⟨he, hs⟩ := h
          subst he
          subst hs
          obtain ⟨pre, es, post, h1, h2⟩ := ih hr
          exact ⟨(a :: as) :: pre, es, post, by simp [h1], by simp [h2]⟩

/-- Interleaving preserves event counts: a merge holds exactly the events
of the flattened streams. -/
theorem countP_mergeStreams (f : BEvent → Bool) :
    ∀ (oracle : List Nat) (streams : List (List BEvent)),
      (mergeStreams streams oracle).countP f = streams.flatten.countP f := by
  intro oracle
  induction oracle with
  | nil => intro streams; rfl
  | cons c cs ih =>
    intro streams
    cases hr : removeHead streams c with
    | none => simp [mergeStreams, hr]
    | some pr =>
      obtain ⟨e, streams'⟩ := pr
      obtain ⟨pre, es, post, h1, h2⟩ := removeHead_eq hr
      subst h1
      subst h2
      simp [mergeStreams, hr, ih, List.countP_append, List.countP_cons,
        List.countP_flatten, List.map_append, List.sum_append]
      omega

/-- A merge is empty only when every stream is empty. -/
theorem mergeStreams_eq_nil :
    ∀ {oracle : List Nat} {streams : List (List BEvent)},
      mergeStreams streams oracle = [] → streams.flatten = [] := by
  intro oracle
  induction oracle with
  | nil => intro streams h; exact h
  | cons c cs ih =>
    intro streams h
    cases hr : removeHead streams c with
    | none => simpa [mergeStreams, hr] using h
    | some pr =>
      obtain ⟨e, streams'⟩ := pr
      simp [mergeStreams, hr] at h

/-- Interleaving preserves membership. -/
theorem mem_mergeStreams {x : BEvent} {streams : List (List BEvent)}
    {oracle : List Nat} :
    x ∈ mergeStreams streams oracle ↔ x ∈ streams.flatten := by
  have hc := countP_mergeStreams (fun e => e == x) oracle streams
  constructor <;> intro hm
  · have h1 : 0 < (mergeStreams streams oracle).countP (fun e => e == x) := by
      rw [List.countP_pos]
      exact ⟨x, hm, by simp⟩
    rw [hc, List.countP_pos] at h1
    obtain ⟨a, ha, hax⟩ := h1
    rwa [show a = x from by simpa using hax] at ha
  · have h1 : 0 < streams.flatten.countP (fun e => e == x) := by
      rw [List.countP_pos]
      exact ⟨x, hm, by simp⟩
    rw [← hc, List.countP_pos] at h1
    obtain ⟨a, ha, hax⟩ := h1
    rwa [show a = x from by simpa using hax] at ha

/-- Sum of a constant-zero map. -/
theorem sum_map_zero {β : Type} : ∀ (l : List β), (l.map (fun _ => (0 : Nat))).sum = 0
  | [] => rfl
  | _ :: rest => by simp [sum_map_zero rest]

/-- Sum of a constant-one map. -/
theorem sum_map_one {β : Type} : ∀ (l : List β), (l.map (fun _ => (1 : Nat))).sum = l.length
  | [] => rfl
  | _ :: rest => by
    simp [sum_map_one rest]
    omega

/-- Sum of indicator values counts the occurrences of an element. -/
theorem sum_map_ite_eq : ∀ (l : List Nat) (i : Nat),
    (l.map (fun j => if j = i then 1 else 0)).sum = l.count i
  | [], _ => by simp
  | a :: rest, i => by
    by_cases h : a = i <;>
      simp [sum_map_ite_eq rest i, List.count_cons, h] <;>
        omega

/-- The chunking loop partitions the file list without loss. -/
theorem chunksOf3_flatten : ∀ l : List Nat, (chunksOf3 l).flatten = l
  | [] => rfl
  | [_] => rfl
  | [_, _] => rfl
  | a :: b :: c :: rest => by simp [chunksOf3, chunksOf3_flatten rest]

/-- Every chunk produced by the chunking loop is non-empty and holds at
most `CONCURRENT_LIMIT = 3` items. -/
theorem chunksOf3_mem : ∀ (l c : List Nat), c ∈ chunksOf3 l → c.length ≤ 3 ∧ c ≠ []
  | [], c, h => by simp [chunksOf3] at h
  | [a], c, h => by
    simp [chunksOf3] at h
    subst h
    simp
  | [a, b], c, h => by
    simp [chunksOf3] at h
    subst h
    simp
  | a :: b :: d :: rest, c, h => by
    simp only [chunksOf3, List.mem_cons] at h
    rcases h with h | h
    · subst h
      simp
    · exact chunksOf3_mem rest c h

/-- An item stream holds no start events. -/
theorem countP_itemStream_start (env : BatchEnv) (i : Nat) :
    (itemStream env i).countP isStartE = 0 := by
  rw [List.countP_eq_zero]
  intro e he
  rcases List.mem_append.mp he with h | h
  · obtain ⟨p, _, rfl⟩ := List.mem_map.mp h
    simp [isStartE]
  · simp only [List.mem_singleton] at h
    subst h
    simp [isStartE]

/-- An item stream holds exactly one settlement. -/
theorem countP_itemStream_settle (env : BatchEnv) (i : Nat) :
    (itemStream env i).countP isSettleE = 1 := by
  rw [itemStream, List.countP_append]
  have h1 : ((env.uploads i).map (BEvent.uprog i)).countP isSettleE = 0 := by
    rw [List.countP_eq_zero]
    intro e he
    obtain ⟨p, _, rfl⟩ := List.mem_map.mp he
    simp [isSettleE]
  rw [h1]
  rfl

/-- An item stream holds exactly one settlement of its own item and none
of any other. -/
theorem countP_itemStream_settleOf (env : BatchEnv) (i j : Nat) :
    (itemStream env j).countP (settleOf i) = if j = i then 1 else 0 := by
  rw [itemStream, List.countP_append]
  have h1 : ((env.uploads j).map (BEvent.uprog j)).countP (settleOf i) = 0 := by
    rw [List.countP_eq_zero]
    intro e he
    obtain ⟨p, _, rfl⟩ := List.mem_map.mp he
    simp [settleOf]
  rw [h1]
  by_cases h : j = i <;> simp [settleOf, h]

/-- An item stream holds one upload-progress event per reported
percentage. -/
theorem countP_itemStream_uprog (env : BatchEnv) (j : Nat) :
    (itemStream env j).countP isUprogE = (env.uploads j).length := by
  rw [itemStream, List.countP_append]
  have h1 : ((env.uploads j).map (BEvent.uprog j)).countP isUprogE
      = (env.uploads j).length := by
    rw [List.countP_map]
    simp [Function.comp, isUprogE]
  rw [h1]
  rfl

/-- A chunk trace starts exactly its items. -/
theorem countP_chunkTrace_start (env : BatchEnv) (idxs : List Nat)
    (oracle : List Nat) :
    (chunkTrace env idxs oracle).countP isStartE = idxs.length := by
  rw [chunkTrace, List.countP_append, countP_mergeStreams,
    List.countP_flatten, List.map_map]
  have h1 : (idxs.map BEvent.start).countP isStartE = idxs.length := by
    rw [List.countP_map]
    simp [Function.comp, isStartE]
  have h2 : (idxs.map (List.countP isStartE ∘ itemStream env)).sum = 0 := by
    have : (idxs.map (List.countP isStartE ∘ itemStream env))
        = idxs.map (fun _ => 0) := by
      apply List.map_congr_left
      intro i _
      exact countP_itemStream_start env i
    rw [this, sum_map_zero]
  rw [h1, h2]
  omega

/-- A chunk trace settles exactly its items. -/
theorem countP_chunkTrace_settle (env : BatchEnv) (idxs : List Nat)
    (oracle : List Nat) :
    (chunkTrace env idxs oracle).countP isSettleE = idxs.length := by
  rw [chunkTrace, List.countP_append, countP_mergeStreams,
    List.countP_flatten, List.map_map]
  have h1 : (idxs.map BEvent.start).countP isSettleE = 0 := by
    rw [List.countP_map]
    simp [Function.comp, isSettleE]
  have h2 : (idxs.map (List.countP isSettleE ∘ itemStream env)).sum
      = idxs.length := by
    have : (idxs.map (List.countP isSettleE ∘ itemStream env))
        = idxs.map (fun _ => 1) := by
      apply List.map_congr_left
      intro i _
      exact countP_itemStream_settle env i
    rw [this, sum_map_one]
  rw [h1, h2]
  omega

/-- A chunk trace settles item `i` once when the chunk holds `i`, never
otherwise. -/
theorem countP_chunkTrace_settleOf (env : BatchEnv) (idxs : List Nat)
    (oracle : List Nat) (i : Nat) :
    (chunkTrace env idxs oracle).countP (settleOf i) = idxs.count i := by
  rw [chunkTrace, List.countP_append, countP_mergeStreams,
    List.countP_flatten, List.map_map]
  have h1 : (idxs.map BEvent.start).countP (settleOf i) = 0 := by
    rw [List.countP_map]
    simp [Function.comp, settleOf]
  have h2 : (idxs.map (List.countP (settleOf i) ∘ itemStream env)).sum
      = idxs.count i := by
    have : (idxs.map (List.countP (settleOf i) ∘ itemStream env))
        = idxs.map (fun j => if j = i then 1 else 0) := by
      apply List.map_congr_left
      intro j _
      exact countP_itemStream_settleOf env i j
    rw [this, sum_map_ite_eq]
  rw [h1, h2]
  omega

/-- A chunk trace has no upload-progress events when no item reports
any. -/
theorem countP_chunkTrace_uprog_zero (env : BatchEnv) (idxs : List Nat)
    (oracle : List Nat) (hup : ∀ i, env.uploads i = []) :
    (chunkTrace env idxs oracle).countP isUprogE = 0 := by
  rw [chunkTrace, List.countP_append, countP_mergeStreams,
    List.countP_flatten, List.map_map]
  have h1 : (idxs.map BEvent.start).countP isUprogE = 0 := by
    rw [List.countP_map]
    simp [Function.comp, isUprogE]
  have h2 : (idxs.map (List.countP isUprogE ∘ itemStream env)).sum = 0 := by
    have : (idxs.map (List.countP isUprogE ∘ itemStream env))
        = idxs.map (fun _ => 0) := by
      apply List.map_congr_left
      intro j _
      rw [Function.comp_apply, countP_itemStream_uprog, hup]
      rfl
    rw [this, sum_map_zero]
  rw [h1, h2]

/-- Summing per-list occurrence counts counts occurrences in the
flattening. -/
theorem sum_map_count : ∀ (ls : List (List Nat)) (i : Nat),
    (ls.map (fun l => l.count i)).sum = ls.flatten.count i
  | [], _ => rfl
  | l :: rest, i => by
    simp [sum_map_count rest i, List.count_append]

/-- Per-chunk trace counts lift to the batch trace. -/
theorem countP_batchTrace (f : BEvent → Bool) (env : BatchEnv) (n : Nat)
    (oracles : Nat → List Nat) (g : List Nat → Nat)
    (hchunk : ∀ idxs oracle, (chunkTrace env idxs oracle).countP f = g idxs) :
    (batchTrace env n oracles).countP f
      = ((chunksOf3 (List.range n)).map g).sum := by
  rw [batchTrace, List.countP_flatten, chunkTraces, List.map_map]
  have h1 : ((chunksOf3 (List.range n)).enum.map
      (List.countP f ∘ fun p => chunkTrace env p.2 (oracles p.1)))
      = (chunksOf3 (List.range n)).enum.map (fun p => g p.2) := by
    apply List.map_congr_left
    intro p _
    exact hchunk p.2 (oracles p.1)
  rw [h1]
  have h2 : ((chunksOf3 (List.range n)).enum.map (fun p => g p.2))
      = (chunksOf3 (List.range n)).map g := by
    rw [show (fun p : Nat × List Nat => g p.2) = g ∘ Prod.snd from rfl,
      ← List.map_map, List.enum_map_snd]
  rw [h2]

/-- The batch trace settles each of the `n` items exactly once overall. -/
theorem countP_batchTrace_settle (env : BatchEnv) (n : Nat)
    (oracles : Nat → List Nat) :
    (batchTrace env n oracles).countP isSettleE = n := by
  rw [countP_batchTrace isSettleE env n oracles List.length
    (fun idxs oracle => countP_chunkTrace_settle env idxs oracle)]
  rw [← List.length_flatten, chunksOf3_flatten, List.length_range]

/-- The batch trace starts each of the `n` items exactly once overall. -/
theorem countP_batchTrace_start (env : BatchEnv) (n : Nat)
    (oracles : Nat → List Nat) :
    (batchTrace env n oracles).countP isStartE = n := by
  rw [countP_batchTrace isStartE env n oracles List.length
    (fun idxs oracle => countP_chunkTrace_start env idxs oracle)]
  rw [← List.length_flatten, chunksOf3_flatten, List.length_range]

/-- Each item below `n` settles exactly once in the batch trace. -/
theorem countP_batchTrace_settleOf (env : BatchEnv) (n : Nat)
    (oracles : Nat → List Nat) (i : Nat) (hi : i < n) :
    (batchTrace env n oracles).countP (settleOf i) = 1 := by
  rw [countP_batchTrace (settleOf i) env n oracles (fun idxs => idxs.count i)
    (fun idxs oracle => countP_chunkTrace_settleOf env idxs oracle i)]
  rw [sum_map_count, chunksOf3_flatten]
  exact List.count_eq_one_of_mem (List.nodup_range n) (List.mem_range.mpr hi)

/-- With no reported upload percentages the batch trace has no
upload-progress events. -/
theorem countP_batchTrace_uprog_zero (env : BatchEnv) (n : Nat)
    (oracles : Nat → List Nat) (hup : ∀ i, env.uploads i = []) :
    (batchTrace env n oracles).countP isUprogE = 0 := by
  rw [countP_batchTrace isUprogE env n oracles (fun _ => 0)
    (fun idxs oracle => countP_chunkTrace_uprog_zero env idxs oracle hup)]
  exact sum_map_zero _

/-- The in-flight bound for a flattening of balanced blocks: every block
starts as many operations as it settles, and no block section starts more
than 3, so no cut of the flattening leaves more than 3 outstanding. -/
theorem inFlight_flatten_le :
    ∀ (ts : List (List BEvent)),
      (∀ t ∈ ts, t.countP isStartE = t.countP isSettleE ∧
        ∀ p q, t = p ++ q → p.countP isStartE ≤ 3) →
      ∀ p q, ts.flatten = p ++ q → p.countP isStartE - p.countP isSettleE ≤ 3
  | [], _, p, q, h => by
    have hp : p = [] := by
      cases p with
      | nil => rfl
      | cons a l => simp at h
    subst hp
    simp
  | t :: rest, hts, p, q, h => by
    rw [List.flatten_cons] at h
    rcases List.append_eq_append_iff.mp h.symm with ⟨a, ha1, _⟩ | ⟨c, hc1, hc2⟩
    · -- the cut is inside the first block
      have hple := (hts t (by simp)).2 p a ha1
      exact le_trans (Nat.sub_le _ _) hple
    · -- the cut extends past the first block
      have hbal := (hts t (by simp)).1
      have hrec := inFlight_flatten_le rest
        (fun u hu => hts u (List.mem_cons_of_mem _ hu)) c q hc2
      subst hc1
      rw [List.countP_append, List.countP_append, hbal, Nat.add_sub_add_left]
      exact hrec

/-- C7: at no cut of any `analyzeImages` run over any number of files are
more than `CONCURRENT_LIMIT = 3` analyze operations in flight: chunks run
sequentially and each holds at most 3 items. -/
theorem C7_at_most_three_in_flight (env : BatchEnv) (n : Nat)
    (oracles : Nat → List Nat) (p q : List BEvent)
    (h : batchTrace env n oracles = p ++ q) : inFlight p ≤ 3 := by
  rw [inFlight]
  apply inFlight_flatten_le (chunkTraces env n oracles) ?_ p q h
  intro t ht
  rw [chunkTraces] at ht
  obtain ⟨pr, hpr, rfl⟩ := List.mem_map.mp ht
  have hidxs : pr.2 ∈ chunksOf3 (List.range n) := by
    have := List.enum_map_snd (chunksOf3 (List.range n))
    rw [← this]
    exact List.mem_map_of_mem Prod.snd hpr
  have hlen := (chunksOf3_mem (List.range n) pr.2 hidxs).1
  constructor
  · rw [countP_chunkTrace_start, countP_chunkTrace_settle]
  · intro p' q' hcut
    have h1 := countP_chunkTrace_start env pr.2 (oracles pr.1)
    rw [hcut, List.countP_append] at h1
    omega

/-- Witness for the in-flight bound at a concrete one-item run. -/
theorem C7_at_most_three_in_flight_witness :
    inFlight [BEvent.start 0] ≤ 3 :=
  C7_at_most_three_in_flight ⟨fun _ => true, fun _ => []⟩ 1 (fun _ => [])
    [BEvent.start 0] [BEvent.settle 0 true] (by decide)

/-- The completed counter counts exactly the settle events consumed. -/
theorem completed_foldl (n : Nat) :
    ∀ (t : List BEvent) (s : BState),
      (t.foldl (stepEvent n) s).completed = s.completed + t.countP isSettleE
  | [], s => by simp
  | e :: rest, s => by
    cases e <;>
      simp [stepEvent, completed_foldl n rest, List.countP_cons, isSettleE] <;>
        omega

/-- The bookkeeping of `analyzeImages` always balances: consuming any
events from a state with `completed = results.length + errors.length`
preserves that equation. -/
theorem c8_invariant (n : Nat) :
    ∀ (t : List BEvent) (s : BState),
      s.completed = s.results.length + s.errors.length →
      (t.foldl (stepEvent n) s).completed
        = (t.foldl (stepEvent n) s).results.length
          + (t.foldl (stepEvent n) s).errors.length
  | [], _, h => h
  | e :: rest, s, h => by
    apply c8_invariant n rest
    cases e with
    | start i => exact h
    | uprog i p => exact h
    | settle i ok => cases ok <;> simp [stepEvent, h] <;> omega

/-- C8: after every settlement event of every `analyzeImages` run — hence
after consuming any leading section of the run's event trace — the
completed count equals the number of successes plus the number of
failures, and the returned summary reports `total = n` with
`successful + failed` equal to the final completed count, which is `n`. -/
theorem C8_counters_balance (env : BatchEnv) (n : Nat)
    (oracles : Nat → List Nat) :
    (∀ p q, batchTrace env n oracles = p ++ q →
      (runTrace n p).completed
        = (runTrace n p).results.length + (runTrace n p).errors.length) ∧
    (summaryOf env n oracles).total = n ∧
    (summaryOf env n oracles).successful + (summaryOf env n oracles).failed
      = (runBatch env n oracles).completed ∧
    (runBatch env n oracles).completed = n := by
  refine ⟨?_, rfl, ?_, ?_⟩
  · intro p q _
    exact c8_invariant n p initB rfl
  · exact (c8_invariant n (batchTrace env n oracles) initB rfl).symm
  · rw [runBatch, runTrace, completed_foldl, countP_batchTrace_settle]
    simp [initB]

/-- Witness for the counter-balance theorem at a concrete two-item run. -/
theorem C8_counters_balance_witness :
    (runTrace 2 [BEvent.start 0, BEvent.start 1]).completed
      = (runTrace 2 [BEvent.start 0, BEvent.start 1]).results.length
        + (runTrace 2 [BEvent.start 0, BEvent.start 1]).errors.length ∧
    (summaryOf ⟨fun _ => true, fun _ => []⟩ 2 (fun _ => [])).total = 2 ∧
    (summaryOf ⟨fun _ => true, fun _ => []⟩ 2 (fun _ => [])).successful
        + (summaryOf ⟨fun _ => true, fun _ => []⟩ 2 (fun _ => [])).failed
      = (runBatch ⟨fun _ => true, fun _ => []⟩ 2 (fun _ => [])).completed ∧
    (runBatch ⟨fun _ => true, fun _ => []⟩ 2 (fun _ => [])).completed = 2 :=
  ⟨(C8_counters_balance ⟨fun _ => true, fun _ => []⟩ 2 (fun _ => [])).1
      [BEvent.start 0, BEvent.start 1]
      [BEvent.settle 0 true, BEvent.settle 1 true] (by decide),
    (C8_counters_balance ⟨fun _ => true, fun _ => []⟩ 2 (fun _ => [])).2.1,
    (C8_counters_balance ⟨fun _ => true, fun _ => []⟩ 2 (fun _ => [])).2.2.1,
    (C8_counters_balance ⟨fun _ => true, fun _ => []⟩ 2 (fun _ => [])).2.2.2⟩

/-- Each settlement of item `i` appends exactly one `onImageComplete`
record for item `i`, and nothing else does. -/
theorem callbacks_countP_foldl (n i : Nat) :
    ∀ (t : List BEvent) (s : BState),
      ((t.foldl (stepEvent n) s).callbacks.countP (fun cb => cb.item == i))
        = s.callbacks.countP (fun cb => cb.item == i) + t.countP (settleOf i)
  | [], s => by simp
  | e :: rest, s => by
    cases e with
    | start j =>
      simp [stepEvent, callbacks_countP_foldl n i rest, List.countP_cons, settleOf]
    | uprog j pr =>
      simp [stepEvent, callbacks_countP_foldl n i rest, List.countP_cons, settleOf]
    | settle j ok =>
      by_cases hj : j = i <;>
        simp [stepEvent, callbacks_countP_foldl n i rest, List.countP_cons,
          List.countP_append, settleOf, hj] <;>
          omega

/-- Consuming events preserves the callback-consistency invariant: the
`k`-th `onImageComplete` record carries `completed = k + 1` and sees a
completed count equal to successes plus failures. -/
theorem callbacks_invariant (n : Nat) :
    ∀ (t : List BEvent) (s : BState),
      s.callbacks.length = s.completed →
      s.completed = s.results.length + s.errors.length →
      (∀ k cb, s.callbacks.get? k = some cb →
        cb.completedSeen = k + 1 ∧
        cb.completedSeen = cb.resultsSeen + cb.errorsSeen) →
      ∀ k cb, (t.foldl (stepEvent n) s).callbacks.get? k = some cb →
        cb.completedSeen = k + 1 ∧
        cb.completedSeen = cb.resultsSeen + cb.errorsSeen
  | [], _, _, _, h3 => h3
  | e :: rest, s, h1, h2, h3 => by
    cases e with
    | start j => exact callbacks_invariant n rest _ h1 h2 h3
    | uprog j pr => exact callbacks_invariant n rest _ h1 h2 h3
    | settle j ok =>
      apply callbacks_invariant n rest
      · cases ok <;> simp [stepEvent, h1]
      · cases ok <;> simp [stepEvent, h2] <;> omega
      · intro k cb hk
        simp only [stepEvent] at hk
        rcases Nat.lt_trichotomy k s.callbacks.length with hlt | heq | hgt
        · rw [List.get?_append hlt] at hk
          exact h3 k cb hk
        · subst heq
          rw [List.get?_concat_length] at hk
          have hcb := Option.some.inj hk
          subst hcb
          constructor
          · simp [h1]
          · cases ok <;> simp [h2] <;> omega
        · have hnone : (s.callbacks
              ++ [CallbackRec.mk j ok (s.completed + 1)
                    (if ok then s.results ++ [j] else s.results).length
                    (if ok then s.errors else s.errors ++ [j]).length]).get? k
              = (none : Option CallbackRec) := by
            rw [List.get?_eq_none]
            simp
            omega
          rw [hnone] at hk
          cases hk

/-- C9: in every `analyzeImages` run, `onImageComplete` fires exactly once
per item, and the orchestrator's bookkeeping is updated before the callback
fires: the `k`-th callback record always sees `completed = k + 1` (its own
settlement already counted) with `completed` equal to recorded successes
plus recorded failures. -/
theorem C9_callback_once_and_consistent (env : BatchEnv) (n : Nat)
    (oracles : Nat → List Nat) (i : Nat) (hi : i < n) :
    (runBatch env n oracles).callbacks.countP (fun cb => cb.item == i) = 1 ∧
    (∀ k cb, (runBatch env n oracles).callbacks.get? k = some cb →
      cb.completedSeen = k + 1 ∧
      cb.completedSeen = cb.resultsSeen + cb.errorsSeen) := by
  constructor
  · rw [runBatch, runTrace, callbacks_countP_foldl,
      countP_batchTrace_settleOf env n oracles i hi]
    simp [initB]
  · exact callbacks_invariant n (batchTrace env n oracles) initB rfl rfl
      (fun k cb hk => by simp [initB] at hk)

/-- Witness for the callback theorem at a concrete one-item run. -/
theorem C9_callback_once_and_consistent_witness :
    (runBatch ⟨fun _ => true, fun _ => []⟩ 1 (fun _ => [])).callbacks.countP
        (fun cb => cb.item == 0) = 1 ∧
    ((CallbackRec.mk 0 true 1 1 0).completedSeen = 0 + 1 ∧
      (CallbackRec.mk 0 true 1 1 0).completedSeen
        = (CallbackRec.mk 0 true 1 1 0).resultsSeen
          + (CallbackRec.mk 0 true 1 1 0).errorsSeen) :=
  ⟨(C9_callback_once_and_consistent ⟨fun _ => true, fun _ => []⟩ 1 (fun _ => [])
      0 (by omega)).1,
    (C9_callback_once_and_consistent ⟨fun _ => true, fun _ => []⟩ 1 (fun _ => [])
      0 (by omega)).2 0 (CallbackRec.mk 0 true 1 1 0) (by decide)⟩

/-- Rounding of a quotient is monotone in the numerator. -/
theorem jsRound_mono (n : Nat) {a b : Nat} (h : a ≤ b) :
    jsRound a n ≤ jsRound b n :=
  Nat.div_le_div_right (by omega)

/-- With all `n` items completed the reported overall progress is exactly
100. -/
theorem jsRound_full (n : Nat) (hn : 0 < n) : jsRound (100 * n) n = 100 := by
  rw [jsRound]
  have h1 : 2 * (100 * n) + n = 2 * n * 100 + n := by ring
  rw [h1, Nat.mul_add_div (by omega), Nat.div_eq_of_lt (by omega)]

/-- A flattening of blocks that each end in a settlement (or are empty)
itself ends in a settlement when non-empty. -/
theorem endsSettle_flatten :
    ∀ (ts : List (List BEvent)),
      (∀ t ∈ ts, t ≠ [] → endsSettle t) →
      ts.flatten ≠ [] → endsSettle ts.flatten
  | [], _, hne => absurd rfl hne
  | t :: rest, h, hne => by
    rw [List.flatten_cons] at hne ⊢
    by_cases hr : rest.flatten = []
    · rw [hr, List.append_nil] at hne ⊢
      exact h t (List.mem_cons_self t rest) hne
    · obtain ⟨i, ok, hlast⟩ := endsSettle_flatten rest
        (fun u hu => h u (List.mem_cons_of_mem _ hu)) hr
      exact ⟨i, ok, by rw [List.getLast?_append, hlast]; rfl⟩

/-- Prepending to a non-empty settlement-ended trace keeps the ending. -/
theorem endsSettle_cons {e : BEvent} {l : List BEvent} (hne : l ≠ [])
    (he : endsSettle l) : endsSettle (e :: l) := by
  obtain ⟨i, ok, hl⟩ := he
  refine ⟨i, ok, ?_⟩
  rw [show e :: l = [e] ++ l from rfl, List.getLast?_append, hl]
  rfl

/-- Chopping the head off a non-empty settlement-ended trace keeps the
ending. -/
theorem endsSettle_tail {e : BEvent} {l : List BEvent} (hne : l ≠ [])
    (he : endsSettle (e :: l)) : endsSettle l := by
  obtain ⟨i, ok, hl⟩ := he
  rw [show e :: l = [e] ++ l from rfl, List.getLast?_append] at hl
  cases hgl : l.getLast? with
  | none => exact absurd (List.getLast?_eq_none_iff.mp hgl) hne
  | some x =>
    rw [hgl] at hl
    refine ⟨i, ok, ?_⟩
    rw [hgl]
    exact hl

/-- A non-empty interleaving of streams that each end in a settlement ends
in a settlement. -/
theorem endsSettle_mergeStreams :
    ∀ (oracle : List Nat) (streams : List (List BEvent)),
      (∀ s ∈ streams, s ≠ [] → endsSettle s) →
      mergeStreams streams oracle ≠ [] →
      endsSettle (mergeStreams streams oracle)
  | [], streams, h, hne => endsSettle_flatten streams h hne
  | c :: cs, streams, h, hne => by
    cases hr : removeHead streams c with
    | none =>
      simp only [mergeStreams, hr] at hne ⊢
      exact endsSettle_flatten streams h hne
    | some pr =>
      obtain ⟨e, streams'⟩ := pr
      obtain ⟨pre, es, post, h1, h2⟩ := removeHead_eq hr
      have hstep : mergeStreams streams (c :: cs) = e :: mergeStreams streams' cs := by
        simp only [mergeStreams, hr]
      rw [hstep]
      have h' : ∀ u ∈ streams', u ≠ [] → endsSettle u := by
        intro u hu hune
        rw [h2] at hu
        rcases List.mem_append.mp hu with hm | hm
        · exact h u (by rw [h1]; exact List.mem_append_left _ hm) hune
        · rcases List.mem_cons.mp hm with rfl | hm2
          · have hees := h (e :: u)
              (by rw [h1]; exact List.mem_append_right _ (List.mem_cons_self _ _))
              (by simp)
            exact endsSettle_tail hune hees
          · exact h u
              (by rw [h1]; exact List.mem_append_right _ (List.mem_cons_of_mem _ hm2)) hune
      cases hm : mergeStreams streams' cs with
      | nil =>
        have hfl : streams'.flatten = [] := mergeStreams_eq_nil hm
        have hes : es = [] := by
          rw [h2] at hfl
          exact List.flatten_eq_nil_iff.mp hfl es
            (List.mem_append_right _ (List.mem_cons_self _ _))
        have h1e := h (e :: es)
          (by rw [h1]; exact List.mem_append_right _ (List.mem_cons_self _ _))
          (by simp)
        obtain ⟨i, ok, hle⟩ := h1e
        rw [hes] at hle
        exact ⟨i, ok, hle⟩
      | cons x xs =>
        have hne2 : mergeStreams streams' cs ≠ [] := by rw [hm]; simp
        have hrec := endsSettle_mergeStreams cs streams' h' hne2
        rw [hm] at hrec
        exact endsSettle_cons (by simp) hrec

/-- A chunk trace of a non-empty chunk is non-empty and ends in a
settlement. -/
theorem endsSettle_chunkTrace (env : BatchEnv) (idxs oracle : List Nat)
    (hne : idxs ≠ []) :
    chunkTrace env idxs oracle ≠ [] ∧ endsSettle (chunkTrace env idxs oracle) := by
  have hstreams : ∀ s ∈ idxs.map (itemStream env), s ≠ [] → endsSettle s := by
    intro s hs _
    obtain ⟨i, _, rfl⟩ := List.mem_map.mp hs
    exact ⟨i, env.ok i, by rw [itemStream, List.getLast?_concat]⟩
  have hcnt : (mergeStreams (idxs.map (itemStream env)) oracle).countP isSettleE
      = idxs.length := by
    rw [countP_mergeStreams, List.countP_flatten, List.map_map]
    have heq : (idxs.map (List.countP isSettleE ∘ itemStream env))
        = idxs.map (fun _ => 1) := by
      apply List.map_congr_left
      intro i _
      exact countP_itemStream_settle env i
    rw [heq, sum_map_one]
  have hmerne : mergeStreams (idxs.map (itemStream env)) oracle ≠ [] := by
    intro hcontra
    rw [hcontra] at hcnt
    simp at hcnt
    exact hne (List.length_eq_zero.mp hcnt.symm)
  have hmes := endsSettle_mergeStreams oracle (idxs.map (itemStream env))
    hstreams hmerne
  constructor
  · rw [chunkTrace]
    intro hc
    exact hmerne (List.append_eq_nil.mp hc).2
  · rw [chunkTrace]
    obtain ⟨i, ok, hl⟩ := hmes
    exact ⟨i, ok, by rw [List.getLast?_append, hl]; rfl⟩

/-- Every non-empty batch trace ends in a settlement. -/
theorem endsSettle_batchTrace (env : BatchEnv) (n : Nat)
    (oracles : Nat → List Nat) (hn : 0 < n) :
    endsSettle (batchTrace env n oracles) := by
  rw [batchTrace]
  apply endsSettle_flatten
  · intro t ht _
    rw [chunkTraces] at ht
    obtain ⟨pr, hpr, rfl⟩ := List.mem_map.mp ht
    have hidxs : pr.2 ∈ chunksOf3 (List.range n) := by
      rw [← List.enum_map_snd (chunksOf3 (List.range n))]
      exact List.mem_map_of_mem Prod.snd hpr
    exact (endsSettle_chunkTrace env pr.2 (oracles pr.1)
      (chunksOf3_mem _ _ hidxs).2).2
  · intro hcontra
    have hc := countP_batchTrace_settle env n oracles
    rw [batchTrace, hcontra] at hc
    simp at hc
    omega

/-- The progress value emitted by a final settlement event: consuming a
trace ending in a settlement leaves that settlement's `onProgress` value,
computed from the incremented completed count, at the end of the log. -/
theorem progressLog_last_settle (n : Nat) (t : List BEvent) (i : Nat) (ok : Bool) :
    (runTrace n (t ++ [BEvent.settle i ok])).progressLog.getLast?
      = some (jsRound (100 * ((runTrace n t).completed + 1)) n) := by
  rw [runTrace, List.foldl_append]
  simp [stepEvent, runTrace, List.getLast?_concat]

/-- Without upload-progress events the `onProgress` log stays sorted: each
settlement appends a value at least as large as every earlier one. -/
theorem progress_pairwise_foldl (n : Nat) :
    ∀ (t : List BEvent) (s : BState),
      (∀ e ∈ t, isUprogE e = false) →
      List.Pairwise (fun a b => a ≤ b) s.progressLog →
      (∀ v ∈ s.progressLog, v ≤ jsRound (100 * s.completed) n) →
      List.Pairwise (fun a b => a ≤ b) (t.foldl (stepEvent n) s).progressLog ∧
      (∀ v ∈ (t.foldl (stepEvent n) s).progressLog,
        v ≤ jsRound (100 * (t.foldl (stepEvent n) s).completed) n)
  | [], _, _, hp, hb => ⟨hp, hb⟩
  | e :: rest, s, hu, hp, hb => by
    have hurest : ∀ e' ∈ rest, isUprogE e' = false :=
      fun e' he' => hu e' (List.mem_cons_of_mem _ he')
    cases e with
    | start j => exact progress_pairwise_foldl n rest _ hurest hp hb
    | uprog j pr =>
      have hfalse := hu (BEvent.uprog j pr) (List.mem_cons_self _ _)
      simp [isUprogE] at hfalse
    | settle j ok =>
      apply progress_pairwise_foldl n rest _ hurest
      · show List.Pairwise (fun a b => a ≤ b)
          (s.progressLog ++ [jsRound (100 * (s.completed + 1)) n])
        rw [List.pairwise_append]
        refine ⟨hp, List.pairwise_singleton _ _, ?_⟩
        intro a ha b hbmem
        rw [List.mem_singleton] at hbmem
        subst hbmem
        exact le_trans (hb a ha) (jsRound_mono n (by omega))
      · show ∀ v ∈ s.progressLog ++ [jsRound (100 * (s.completed + 1)) n],
          v ≤ jsRound (100 * (s.completed + 1)) n
        intro v hv
        rcases List.mem_append.mp hv with hv1 | hv2
        · exact le_trans (hb v hv1) (jsRound_mono n (by omega))
        · rw [List.mem_singleton] at hv2
          subst hv2
          exact le_refl _

/-- C2 counterexample: with two items in one chunk, item 0 reporting 100%
upload progress and item 1 then reporting 10%, the `onProgress` sequence is
50, 5, 50, 100 — not monotonically non-decreasing (though it still ends at
100). -/
theorem C2_cex_progress_decreases :
    (runBatch env2 2 or2).progressLog = [50, 5, 50, 100] ∧
    ¬ List.Pairwise (fun a b => a ≤ b) (runBatch env2 2 or2).progressLog := by
  constructor
  · decide
  · decide

/-- C2 amended: in every `analyzeImages` run the final `onProgress` value,
emitted when the last item settles, is exactly 100 (the 100% completion
value); the settlement-driven values alone are monotonically non-decreasing
— in particular the whole sequence is when no upload-progress callbacks
fire — but interleaved per-item upload-progress callbacks can make the
reported sequence decrease. -/
theorem C2_progress_final_and_monotone (env : BatchEnv) (n : Nat)
    (oracles : Nat → List Nat) (hn : 0 < n) :
    (runBatch env n oracles).progressLog.getLast? = some 100 ∧
    ((∀ i, env.uploads i = []) →
      List.Pairwise (fun a b => a ≤ b) (runBatch env n oracles).progressLog) := by
  constructor
  · obtain ⟨i, ok, hlast⟩ := endsSettle_batchTrace env n oracles hn
    have hne : batchTrace env n oracles ≠ [] := by
      intro hc
      rw [hc] at hlast
      simp at hlast
    have hgl : (batchTrace env n oracles).getLast hne = BEvent.settle i ok := by
      have hsome := List.getLast?_eq_getLast (batchTrace env n oracles) hne
      rw [hsome] at hlast
      exact Option.some.inj hlast
    have hname := List.dropLast_append_getLast hne
    rw [hgl] at hname
    have hfull := countP_batchTrace_settle env n oracles
    rw [← hname, List.countP_append] at hfull
    have hcomp : (runTrace n (batchTrace env n oracles).dropLast).completed + 1
        = n := by
      rw [runTrace, completed_foldl]
      simp only [List.countP_cons, List.countP_nil] at hfull
      simp [initB, isSettleE] at hfull ⊢
      omega
    rw [runBatch, ← hname, progressLog_last_settle, hcomp, jsRound_full n hn]
  · intro hup
    have hnup : ∀ e ∈ batchTrace env n oracles, isUprogE e = false := by
      have h0 := countP_batchTrace_uprog_zero env n oracles hup
      rw [List.countP_eq_zero] at h0
      intro e he
      simpa using h0 e he
    exact (progress_pairwise_foldl n (batchTrace env n oracles) initB hnup
      (by simp [initB]) (by simp [initB])).1

/-- Witness for the final-progress theorem at a concrete one-item run with
no upload callbacks. -/
theorem C2_progress_final_and_monotone_witness :
    (runBatch ⟨fun _ => true, fun _ => []⟩ 1 (fun _ => [])).progressLog.getLast?
      = some 100 ∧
    List.Pairwise (fun a b => a ≤ b)
      (runBatch ⟨fun _ => true, fun _ => []⟩ 1 (fun _ => [])).progressLog :=
  ⟨(C2_progress_final_and_monotone ⟨fun _ => true, fun _ => []⟩ 1 (fun _ => [])
      (by omega)).1,
    (C2_progress_final_and_monotone ⟨fun _ => true, fun _ => []⟩ 1 (fun _ => [])
      (by omega)).2 (fun _ => rfl)⟩

/-- C1 counterexample: in the 5-item run where item 0 settles first, the
trace produced by the chunked orchestrator keeps item 3 (the 4th item)
unstarted right after item 0's completion — the next events are the other
settlements of chunk 1 — even though only 2 operations are then in flight
and unstarted items remain.  Items are only started chunk by chunk. -/
theorem C1_cex_no_immediate_admission :
    batchTrace env5 5 or5
      = [BEvent.start 0, BEvent.start 1, BEvent.start 2,
         BEvent.settle 0 true, BEvent.settle 1 true, BEvent.settle 2 true,
         BEvent.start 3, BEvent.start 4,
         BEvent.settle 3 true, BEvent.settle 4 true] ∧
    inFlight [BEvent.start 0, BEvent.start 1, BEvent.start 2,
      BEvent.settle 0 true] < 3 ∧
    (batchTrace env5 5 or5).take 4
      = [BEvent.start 0, BEvent.start 1, BEvent.start 2,
         BEvent.settle 0 true] ∧
    (batchTrace env5 5 or5).get? 4 ≠ some (BEvent.start 3) := by
  refine ⟨by decide, by decide, by decide, by decide⟩

/-- C1 amended: with 5 items and chunk size 3, item 4 (index 3) is never
started upon the first settlement alone: in every schedule the chunked
orchestrator starts item 3 only after ALL of items 0-2 have settled —
`await Promise.all` is a chunk barrier, not a sliding concurrency
window. -/
theorem C1_chunk_barrier (env : BatchEnv) (oracles : Nat → List Nat)
    (p q : List BEvent)
    (h : batchTrace env 5 oracles = p ++ BEvent.start 3 :: q) :
    ∀ i, i < 3 → BEvent.settle i (env.ok i) ∈ p := by
  have hchunks : chunksOf3 (List.range 5) = [[0, 1, 2], [3, 4]] := by decide
  have hsplit : batchTrace env 5 oracles
      = chunkTrace env [0, 1, 2] (oracles 0)
        ++ (chunkTrace env [3, 4] (oracles 1) ++ []) := by
    rw [batchTrace, chunkTraces, hchunks]
    rfl
  have hnotin : BEvent.start 3 ∉ chunkTrace env [0, 1, 2] (oracles 0) := by
    intro hmem
    rw [chunkTrace] at hmem
    rcases List.mem_append.mp hmem with hm | hm
    · simp at hm
    · rw [mem_mergeStreams, List.mem_flatten] at hm
      obtain ⟨l, hl, hml⟩ := hm
      obtain ⟨j, _, rfl⟩ := List.mem_map.mp hl
      rw [itemStream] at hml
      rcases List.mem_append.mp hml with hm2 | hm2
      · obtain ⟨pr, _, hpe⟩ := List.mem_map.mp hm2
        cases hpe
      · simp at hm2
  have hsettle : ∀ i, i < 3 →
      BEvent.settle i (env.ok i) ∈ chunkTrace env [0, 1, 2] (oracles 0) := by
    intro i hi
    rw [chunkTrace]
    apply List.mem_append_right
    rw [mem_mergeStreams, List.mem_flatten]
    refine ⟨itemStream env i, ?_, ?_⟩
    · apply List.mem_map_of_mem
      simp
      omega
    · rw [itemStream]
      exact List.mem_append_right _ (List.mem_singleton.mpr rfl)
  rw [hsplit] at h
  intro i hi
  rcases List.append_eq_append_iff.mp h.symm with ⟨a, ha1, ha2⟩ | ⟨c, hc1, _⟩
  · cases a with
    | nil =>
      rw [List.append_nil] at ha1
      rw [← ha1]
      exact hsettle i hi
    | cons x xs =>
      have hx : x = BEvent.start 3 := by
        have := congrArg List.head? ha2
        simpa using this.symm
      subst hx
      exact absurd (ha1 ▸ List.mem_append_right p (List.mem_cons_self _ _)) hnotin
  · rw [hc1]
    exact List.mem_append_left _ (hsettle i hi)

/-- Witness for the chunk-barrier theorem at the concrete 5-item schedule
where item 0 settles first. -/
theorem C1_chunk_barrier_witness :
    BEvent.settle 0 (env5.ok 0)
        ∈ [BEvent.start 0, BEvent.start 1, BEvent.start 2,
           BEvent.settle 0 true, BEvent.settle 1 true, BEvent.settle 2 true] ∧
    BEvent.settle 1 (env5.ok 1)
        ∈ [BEvent.start 0, BEvent.start 1, BEvent.start 2,
           BEvent.settle 0 true, BEvent.settle 1 true, BEvent.settle 2 true] ∧
    BEvent.settle 2 (env5.ok 2)
        ∈ [BEvent.start 0, BEvent.start 1, BEvent.start 2,
           BEvent.settle 0 true, BEvent.settle 1 true, BEvent.settle 2 true] :=
  ⟨C1_chunk_barrier env5 or5
      [BEvent.start 0, BEvent.start 1, BEvent.start 2,
       BEvent.settle 0 true, BEvent.settle 1 true, BEvent.settle 2 true]
      [BEvent.start 4, BEvent.settle 3 true, BEvent.settle 4 true]
      (by decide) 0 (by omega),
    C1_chunk_barrier env5 or5
      [BEvent.start 0, BEvent.start 1, BEvent.start 2,
       BEvent.settle 0 true, BEvent.settle 1 true, BEvent.settle 2 true]
      [BEvent.start 4, BEvent.settle 3 true, BEvent.settle 4 true]
      (by decide) 1 (by omega),
    C1_chunk_barrier env5 or5
      [BEvent.start 0, BEvent.start 1, BEvent.start 2,
       BEvent.settle 0 true, BEvent.settle 1 true, BEvent.settle 2 true]
      [BEvent.start 4, BEvent.settle 3 true, BEvent.settle 4 true]
      (by decide) 2 (by omega)⟩

/-- Witness for the validator characterisation: an upper-case JPEG MIME
type of acceptable size and name validates. -/
theorem C10_validateFile_spec_witness :
    (validateFile ⟨"IMAGE/JPEG", 1000, "cat.jpg"⟩).valid = true :=
  ((C10_validateFile_spec ⟨"IMAGE/JPEG", 1000, "cat.jpg"⟩).1).mpr
    ⟨by decide, by decide, by decide⟩
